import Mathlib

/-
Verification of the Learneitaa vocabulary-drilling application.

This file gives a shallow embedding, in Lean 4, of the level-generation and
answer-validation core of the application (a single ~1270-line JS source file):
the vocabulary corpus, the distractor-selection loop, the Fisher-Yates shuffle,
the progression controller (success / fail transitions, medal awarding,
persistence), the letter-assembly engine (letter clicks and undo), the hangman
engine, and the number-to-words conversion.  JS strings are modelled as Lean
`String` (or `List Char` where letter-by-letter reasoning is needed), JS arrays
as `List`, the JS `Set` as a duplicate-free insertion list, `Math.random()`
draws as an explicit stream `Nat → Nat` of drawn indices, `setTimeout`-delayed
continuations as explicit function composition, and the unbounded JS `while`
loop as a fuel-indexed recursion returning `Option` (`none` = the loop has not
finished within the given fuel).  `localStorage` is modelled as a second copy
of the progress record held in the state (`stored`), updated exactly where the
source calls `saveProgress`.

Purely presentational code (DOM construction, CSS classes, animations, audio,
speech synthesis) is outside the model; observable game effects (Outcome
reports, the displayed hint, the re-rendered challenge's level) are kept.
-/

/-- One vocabulary item of the corpus: an English word and its Persian translation
(the `{ en, fa }` objects in `getVocabData`). -/
structure VocabItem where
  en : String
  fa : String
deriving DecidableEq, Repr

/-- The `translate` library of `getVocabData` (source lines 514-524). -/
def translateLib : List VocabItem := [
  ⟨"Book", "کتاب"⟩,
  ⟨"Water", "آب"⟩,
  ⟨"Sun", "خورشید"⟩,
  ⟨"Moon", "ماه"⟩,
  ⟨"Star", "ستاره"⟩,
  ⟨"Friend", "دوست"⟩,
  ⟨"School", "مدرسه"⟩,
  ⟨"House", "خانه"⟩,
  ⟨"Bread", "نان"⟩,
  ⟨"Love", "عشق"⟩,
  ⟨"Time", "زمان"⟩,
  ⟨"Day", "روز"⟩,
  ⟨"Night", "شب"⟩,
  ⟨"Earth", "زمین"⟩,
  ⟨"Forest", "جنگل"⟩,
  ⟨"Mountain", "کوه"⟩,
  ⟨"Sea", "دریا"⟩,
  ⟨"River", "رودخانه"⟩,
  ⟨"Sky", "آسمان"⟩,
  ⟨"Rain", "باران"⟩,
  ⟨"Snow", "برف"⟩,
  ⟨"Wind", "باد"⟩,
  ⟨"Fire", "آتش"⟩,
  ⟨"Tree", "درخت"⟩,
  ⟨"Flower", "گل"⟩,
  ⟨"City", "شهر"⟩,
  ⟨"Village", "روستا"⟩,
  ⟨"Road", "جاده"⟩,
  ⟨"Car", "ماشین"⟩,
  ⟨"Plane", "هواپیما"⟩,
  ⟨"Boat", "قایق"⟩,
  ⟨"Bicycle", "دوچرخه"⟩,
  ⟨"Computer", "کامپیوتر"⟩,
  ⟨"Phone", "تلفن"⟩,
  ⟨"Clock", "ساعت"⟩,
  ⟨"Money", "پول"⟩]

/-- A hangman corpus item: target word (a JS string, modelled as its list of
characters) and a hint (the `{ word, hint }` objects). -/
structure HangmanItem where
  word : List Char
  hint : String
deriving DecidableEq, Repr

/-- The 14-item `hangman` library of `getVocabData` (source lines 556-564). -/
def hangmanCorpus : List HangmanItem := [
  ⟨"GALAXY".toList, "ستاره‌ها و سیارات"⟩,
  ⟨"PYTHON".toList, "یک زبان برنامه‌نویسی"⟩,
  ⟨"GUITAR".toList, "ساز موسیقی"⟩,
  ⟨"ORANGE".toList, "یک میوه نارنجی"⟩,
  ⟨"COMPUTER".toList, "دستگاه هوشمند"⟩,
  ⟨"AIRPLANE".toList, "وسیله پرواز"⟩,
  ⟨"KEYBOARD".toList, "تایپ کردن"⟩,
  ⟨"MOUNTAIN".toList, "بلندتر از تپه"⟩,
  ⟨"LIBRARY".toList, "محل کتاب‌ها"⟩,
  ⟨"DIAMOND".toList, "سنگ قیمتی"⟩,
  ⟨"UMBRELLA".toList, "محافظ باران"⟩,
  ⟨"VOLCANO".toList, "کوه آتش‌فشان"⟩,
  ⟨"SUNGLASS".toList, "محافظ چشم"⟩,
  ⟨"HOSPITAL".toList, "محل درمان"⟩]

/-- The hard-coded 4-word list local to `renderHangmanGame` (source lines 807-812). -/
def hangmanLocalWords : List HangmanItem := [
  ⟨"GALAXY".toList, "ستاره‌ها و سیارات"⟩,
  ⟨"PYTHON".toList, "یک زبان برنامه‌نویسی"⟩,
  ⟨"GUITAR".toList, "ساز موسیقی"⟩,
  ⟨"ORANGE".toList, "یک میوه نارنجی"⟩]

/-- A color item of `renderColorsGame` (the hex code is omitted: it is only a CSS
background, never compared with an answer). -/
structure ColorItem where
  name : String
  fa : String
deriving DecidableEq, Repr

/-- The color list local to `renderColorsGame` (source lines 948-954). -/
def colorsList : List ColorItem := [
  ⟨"RED", "قرمز"⟩,
  ⟨"BLUE", "آبی"⟩,
  ⟨"GREEN", "سبز"⟩,
  ⟨"YELLOW", "زرد"⟩,
  ⟨"PURPLE", "بنفش"⟩]

/-- The `ones` table of `numberToWords` (source line 883): words for 0-19. -/
def onesWords : List String :=
  ["ZERO", "ONE", "TWO", "THREE", "FOUR", "FIVE", "SIX", "SEVEN", "EIGHT",
   "NINE", "TEN", "ELEVEN", "TWELVE", "THIRTEEN", "FOURTEEN", "FIFTEEN",
   "SIXTEEN", "SEVENTEEN", "EIGHTEEN", "NINETEEN"]

/-- The `tens` table of `numberToWords` (source line 884): words for 20,30,...,90,
with unused slots 0 and 1 empty. -/
def tensWords : List String :=
  ["", "", "TWENTY", "THIRTY", "FORTY", "FIFTY", "SIXTY", "SEVENTY", "EIGHTY",
   "NINETY"]

/-- `numberToWords` (source lines 882-889).  `n.toString()` on the final line is
the decimal digit string, `toString` on `Nat` in Lean.  The JS recursion
`this.numberToWords(n % 100)` is well-founded because `n % 100 < n` when
`100 ≤ n`. -/
def numberToWords (n : Nat) : String :=
  if n < 20 then onesWords.getD n ""
  else if n < 100 then
    tensWords.getD (n / 10) "" ++ (if n % 10 ≠ 0 then " " ++ onesWords.getD (n % 10) "" else "")
  else if n < 1000 then
    onesWords.getD (n / 100) "" ++ " HUNDRED" ++
      (if n % 100 ≠ 0 then " " ++ numberToWords (n % 100) else "")
  else toString n
termination_by n
decreasing_by
  have h100 : 0 < 100 := by norm_num
  have := Nat.mod_lt n h100
  omega

/-- Swap of positions `i` and `j` of a JS array,
`[array[i], array[j]] = [array[j], array[i]]` (source line 1145); identity when
an index is out of range (which the source never does: both come from
`Math.floor(Math.random() * (i + 1))`). -/
def swapList {α : Type} (l : List α) (i j : Nat) : List α :=
  if h : i < l.length ∧ j < l.length then
    (l.set i (l.get ⟨j, h.2⟩)).set j (l.get ⟨i, h.1⟩)
  else l

/-- The body of `shuffleArray`'s `for` loop (source lines 1142-1148), run for
`i = k, k-1, ..., 1`; the random draw for iteration `i` is `stream i % (i + 1)`,
modelling `Math.floor(Math.random() * (i + 1)) ≤ i`. -/
def shuffleAux {α : Type} (stream : Nat → Nat) : Nat → List α → List α
  | 0, l => l
  | i + 1, l => shuffleAux stream i (swapList l (i + 1) (stream (i + 1) % (i + 2)))

/-- `shuffleArray` (source lines 1142-1148): Fisher-Yates, iterating `i` from
`array.length - 1` down to `1`. -/
def shuffleArray {α : Type} (stream : Nat → Nat) (l : List α) : List α :=
  shuffleAux stream (l.length - 1) l

/-- The rejection-sampling `while` loop shared by `renderTranslateGame`
(lines 657-660), `renderCategoryChoiceGame` (lines 1102-1105) and
`renderNumToWordGame` (lines 898-902): while fewer than 4 options, draw a
candidate value `vals[stream pos]` and push it unless already present.  The JS
loop is unbounded; `fuel` counts remaining iterations and `none` means the loop
has not finished within `fuel` iterations. -/
def pickLoop (vals : List String) (stream : Nat → Nat) :
    Nat → Nat → List String → Option (List String)
  | 0, _, opts => if opts.length < 4 then none else some opts
  | fuel + 1, pos, opts =>
    if opts.length < 4 then
      let cand := vals.getD (stream pos) ""
      if cand ∈ opts then pickLoop vals stream fuel (pos + 1) opts
      else pickLoop vals stream fuel (pos + 1) (opts ++ [cand])
    else some opts

/-- The values drawn by `pickLoop` from position `pos` over the next `fuel`
iterations. -/
def drawsWindow (vals : List String) (stream : Nat → Nat) : Nat → Nat → List String
  | _, 0 => []
  | pos, fuel + 1 => vals.getD (stream pos) "" :: drawsWindow vals stream (pos + 1) fuel

/-- A generated choice challenge: the correct answer and the 4-option list
handed to the buttons. -/
structure Challenge where
  correct : String
  options : List String
deriving DecidableEq, Repr

/-- `renderTranslateGame`'s challenge construction (source lines 653-662): the
corpus word is `library[this.currentLevel % library.length]`, the option list
starts as `[word.fa]`, is filled by the rejection-sampling loop over the
library's `fa` values, and is then shuffled.  `s1` drives the loop's draws,
`s2` the shuffle. -/
def translateChallenge (lvl : Nat) (s1 s2 : Nat → Nat) (fuel : Nat) : Option Challenge :=
  let word := translateLib.getD (lvl % translateLib.length) ⟨"", ""⟩
  (pickLoop (translateLib.map VocabItem.fa) s1 fuel 0 [word.fa]).map
    (fun opts => ⟨word.fa, shuffleArray s2 opts⟩)

/-- `renderCategoryChoiceGame`'s challenge construction (source lines 1098-1106)
for a category library `lib` (`getVocabData(category)`): corpus item at
`this.currentLevel % library.length`, options filled from the library's `en`
values by the same rejection-sampling loop, then shuffled. -/
def categoryChallenge (lib : List VocabItem) (lvl : Nat) (s1 s2 : Nat → Nat)
    (fuel : Nat) : Option Challenge :=
  let word := lib.getD (lvl % lib.length) ⟨"", ""⟩
  (pickLoop (lib.map VocabItem.en) s1 fuel 0 [word.en]).map
    (fun opts => ⟨word.en, shuffleArray s2 opts⟩)

/-- `renderColorsGame`'s challenge construction (source lines 947-958): color at
`this.currentLevel % colors.length`; options are
`shuffleArray([data.name, 'ORANGE', 'BLACK', 'WHITE', 'BROWN']).slice(0, 4)`,
patched with `options[0] = data.name` when the shuffle dropped the name, then
shuffled again.  No loop, so no fuel. -/
def colorsChallenge (lvl : Nat) (s1 s2 : Nat → Nat) : Challenge :=
  let data := colorsList.getD (lvl % colorsList.length) ⟨"", ""⟩
  let base := shuffleArray s1 [data.name, "ORANGE", "BLACK", "WHITE", "BROWN"]
  let opts := base.take 4
  let opts2 := if data.name ∈ opts then opts else opts.set 0 data.name
  ⟨data.name, shuffleArray s2 opts2⟩

/-- Consing the element at position `j` onto `t.set j a` is a permutation of
consing `a` onto `t`: the key step for the Fisher-Yates swap. -/
theorem get_cons_set_perm {α : Type} :
    ∀ (t : List α) (j : Nat) (hj : j < t.length) (a : α),
      List.Perm (t.get ⟨j, hj⟩ :: t.set j a) (a :: t)
  | b :: t', 0, _, a => by
      simpa using List.Perm.swap a b t'
  | b :: t', j + 1, hj, a => by
      simp only [List.get, List.set]
      exact (List.Perm.swap _ _ _).trans
        (((get_cons_set_perm t' j (by simpa using hj) a).cons b).trans
          (List.Perm.swap _ _ _))

/-- The double `set` of the in-range swap is a permutation of the original list. -/
theorem set_set_perm {α : Type} :
    ∀ (l : List α) (i j : Nat) (hi : i < l.length) (hj : j < l.length),
      List.Perm ((l.set i (l.get ⟨j, hj⟩)).set j (l.get ⟨i, hi⟩)) l
  | a :: t, 0, 0, _, _ => by simp
  | a :: t, 0, j + 1, hi, hj => by
      simpa using get_cons_set_perm t j (by simpa using hj) a
  | a :: t, i + 1, 0, hi, hj => by
      simpa using get_cons_set_perm t i (by simpa using hi) a
  | a :: t, i + 1, j + 1, hi, hj => by
      simpa using (set_set_perm t i j (by simpa using hi) (by simpa using hj)).cons a

/-- A swap permutes the list. -/
theorem swapList_perm {α : Type} (l : List α) (i j : Nat) :
    List.Perm (swapList l i j) l := by
  unfold swapList
  split
  · exact set_set_perm l i j _ _
  · exact List.Perm.refl l

/-- Every pass of the shuffle loop permutes the list. -/
theorem shuffleAux_perm {α : Type} (stream : Nat → Nat) :
    ∀ (i : Nat) (l : List α), List.Perm (shuffleAux stream i l) l
  | 0, l => List.Perm.refl l
  | i + 1, l =>
      (shuffleAux_perm stream i _).trans (swapList_perm l (i + 1) _)

/-- `shuffleArray` permutes its input: the shuffled option list has the same
elements, multiplicities, length, and duplicate-freeness as the unshuffled one. -/
theorem shuffleArray_perm {α : Type} (stream : Nat → Nat) (l : List α) :
    List.Perm (shuffleArray stream l) l :=
  shuffleAux_perm stream (l.length - 1) l

/-- Invariants of the rejection-sampling loop when it finishes: every option
already chosen survives, duplicate-freeness is preserved (a candidate is pushed
only if not already present), and starting from at most 4 options it finishes
with exactly 4. -/
theorem pickLoop_some_spec (vals : List String) (stream : Nat → Nat) :
    ∀ (fuel pos : Nat) (opts res : List String),
      pickLoop vals stream fuel pos opts = some res →
      (∀ x ∈ opts, x ∈ res) ∧ (opts.Nodup → res.Nodup) ∧
        (opts.length ≤ 4 → res.length = 4)
  | 0, pos, opts, res => by
      intro h
      unfold pickLoop at h
      split at h
      case isTrue hlt => exact absurd h (by simp)
      case isFalse hge =>
        obtain rfl : opts = res := by simpa using h
        exact ⟨fun x hx => hx, fun hn => hn, fun hle => by omega⟩
  | fuel + 1, pos, opts, res => by
      intro h
      unfold pickLoop at h
      split at h
      case isTrue hlt =>
        by_cases hc : vals.getD (stream pos) "" ∈ opts
        · rw [if_pos hc] at h
          exact pickLoop_some_spec vals stream fuel (pos + 1) opts res h
        · rw [if_neg hc] at h
          obtain ⟨hmem, hnd, hlen⟩ :=
            pickLoop_some_spec vals stream fuel (pos + 1) (opts ++ [vals.getD (stream pos) ""]) res h
          refine ⟨fun x hx => hmem x (by simp [hx]), fun hn => hnd ?_, fun hle => hlen ?_⟩
          · simp [List.nodup_append, hn]
            simpa [List.getD] using hc
          · simp
            omega
      case isFalse hge =>
        obtain rfl : opts = res := by simpa using h
        exact ⟨fun x hx => hx, fun hn => hn, fun hle => by omega⟩

/-- If every draw the stream can produce is already among the chosen options,
the rejection-sampling loop never finishes, for any amount of fuel: the `while`
loop of the source spins forever. -/
theorem pickLoop_stuck (vals : List String) (stream : Nat → Nat) (opts : List String)
    (hstuck : ∀ p, vals.getD (stream p) "" ∈ opts) (hlt : opts.length < 4) :
    ∀ (fuel pos : Nat), pickLoop vals stream fuel pos opts = none
  | 0, pos => by
      unfold pickLoop
      rw [if_pos hlt]
  | fuel + 1, pos => by
      unfold pickLoop
      rw [if_pos hlt, if_pos (hstuck pos)]
      exact pickLoop_stuck vals stream opts hstuck hlt fuel (pos + 1)

/-- Sufficient condition for the rejection-sampling loop to finish: if the
values drawn within the fuel window contain at least `4 - opts.length` distinct
values outside the already-chosen options, the loop completes. -/
theorem pickLoop_isSome_of_window (vals : List String) (stream : Nat → Nat) :
    ∀ (fuel pos : Nat) (opts : List String),
      opts.length ≤ 4 →
      4 - opts.length ≤
        ((drawsWindow vals stream pos fuel).toFinset \ opts.toFinset).card →
      (pickLoop vals stream fuel pos opts).isSome
  | 0, pos, opts => by
      intro hle hcard
      unfold drawsWindow at hcard
      simp at hcard
      unfold pickLoop
      rw [if_neg (by omega)]
      simp
  | fuel + 1, pos, opts => by
      intro hle hcard
      unfold pickLoop
      by_cases hlt : opts.length < 4
      · rw [if_pos hlt]
        unfold drawsWindow at hcard
        set cand := vals.getD (stream pos) "" with hcand
        set T := (drawsWindow vals stream (pos + 1) fuel).toFinset with hT
        set O := opts.toFinset with hO
        by_cases hc : cand ∈ opts
        · rw [if_pos hc]
          apply pickLoop_isSome_of_window vals stream fuel (pos + 1) opts hle
          have hmem : cand ∈ O := by simpa [hO] using hc
          have : (insert cand T) \ O = T \ O := Finset.insert_sdiff_of_mem T hmem
          simp only [List.toFinset_cons] at hcard
          rw [this] at hcard
          exact hcard
        · rw [if_neg hc]
          have hlen' : (opts ++ [cand]).length ≤ 4 := by
            simp
            omega
          apply pickLoop_isSome_of_window vals stream fuel (pos + 1) (opts ++ [cand]) hlen'
          have hO' : (opts ++ [cand]).toFinset = insert cand O := by
            ext x
            simp [hO, List.toFinset_append, or_comm]
          rw [hO']
          simp only [List.toFinset_cons] at hcard
          have hcO : cand ∉ O := by simpa [hO] using hc
          have hsd : T \ insert cand O = (T \ O).erase cand := by
            rw [Finset.sdiff_insert]
          rw [hsd]
          have hlen2 : (opts ++ [cand]).length = opts.length + 1 := by simp
          rw [hlen2]
          by_cases hcT : cand ∈ T
          · have h1 : insert cand T = T := Finset.insert_eq_self.mpr hcT
            rw [h1] at hcard
            have h2 : cand ∈ T \ O := Finset.mem_sdiff.mpr ⟨hcT, hcO⟩
            have h3 : ((T \ O).erase cand).card = (T \ O).card - 1 :=
              Finset.card_erase_of_mem h2
            omega
          · have h1 : insert cand T \ O = insert cand (T \ O) :=
              Finset.insert_sdiff_of_not_mem T hcO
            rw [h1] at hcard
            have h2 : (insert cand (T \ O)).card ≤ (T \ O).card + 1 :=
              Finset.card_insert_le _ _
            have h3 : (T \ O).erase cand = T \ O :=
              Finset.erase_eq_of_not_mem (fun hx => hcT (Finset.mem_sdiff.mp hx).1)
            rw [h3]
            omega
      · rw [if_neg hlt]
        simp

/-- Terminal result of a challenge, as reported to feedback/audio
(`successAction` / `failAction`). -/
inductive Outcome
  | succeeded
  | failed
deriving DecidableEq, Repr

/-- What the player is looking at: the main menu, or a challenge of the current
game at the given level (`renderLevel` reads `this.currentLevel`). -/
inductive View
  | menu
  | playing (level : Nat)
deriving DecidableEq, Repr

/-- One per-game progress record, `{ level, medals, completed }`
(source line 34). -/
structure ProgressRecord where
  level : Nat
  medals : Nat
  completed : Bool
deriving DecidableEq, Repr

/-- The session-relevant state of the `App` object: the current game type, the
session score, the current level, the in-memory progress record of the current
game (`this.progress[this.currentGame]`), the persisted copy of that record
(`localStorage`, written by `saveProgress`, source lines 269-271), the list of
Outcomes reported so far, and the current view. -/
structure SessionState where
  game : String
  score : Nat
  currentLevel : Nat
  prog : ProgressRecord
  stored : ProgressRecord
  outcomes : List Outcome
  view : View
deriving DecidableEq, Repr

/-- `this.maxLevels` (source line 32). -/
def maxLevels : Nat := 200

/-- The synchronous part of `successAction` (source lines 1184-1201): play
sound and feedback (reporting the Succeeded outcome), `score += 10`,
`currentLevel++`, and `progress[currentGame].level = currentLevel`.  Nothing is
persisted here: `saveProgress` only runs inside the delayed `nextLevel`
callback. -/
def successSync (s : SessionState) : SessionState :=
  { s with score := s.score + 10,
           outcomes := s.outcomes ++ [Outcome.succeeded],
           currentLevel := s.currentLevel + 1,
           prog := { s.prog with level := s.currentLevel + 1 } }

/-- The delayed `nextLevel` continuation of `successAction` (source lines
1203-1216), run by `setTimeout` after the feedback delay: at
`currentLevel >= maxLevels` it awards a medal, marks the game completed, resets
the stored level to 0, persists, and returns to the menu; otherwise it persists
and re-renders the same game at the (already incremented) current level. -/
def nextLevel (s : SessionState) : SessionState :=
  if s.currentLevel ≥ maxLevels then
    let p : ProgressRecord := ⟨0, s.prog.medals + 1, true⟩
    { s with prog := p, stored := p, view := View.menu }
  else
    { s with stored := s.prog, view := View.playing s.currentLevel }

/-- The whole success transition: the synchronous part followed by the delayed
`nextLevel` callback. -/
def successAction (s : SessionState) : SessionState :=
  nextLevel (successSync s)

/-- The fail transition (`failAction`, source lines 1229-1244, plus the
`setTimeout(() => this.renderLevel(), ...)` that every caller pairs with it):
report the Failed outcome, then re-render the current game at the unchanged
`this.currentLevel`.  `failAction` touches no progress, score, or persisted
state: its body is sound, feedback, speech, and animation only. -/
def failTransition (s : SessionState) : SessionState :=
  { s with outcomes := s.outcomes ++ [Outcome.failed],
           view := View.playing s.currentLevel }

/-- The countdown of the timed translate variant (`startTimer`, source lines
1163-1178): `timeLeft` plus whether the interval is still installed. -/
structure TimerState where
  timeLeft : Nat
  active : Bool
  sess : SessionState
deriving DecidableEq, Repr

/-- One interval tick of `startTimer` (source lines 1169-1177): decrement
`timeLeft`; on reaching 0, stop the timer and run the fail transition (with no
correct-answer text) followed by the delayed re-render of the same level.  A
stopped timer does nothing (`clearInterval`). -/
def timerTick (t : TimerState) : TimerState :=
  if t.active then
    if t.timeLeft - 1 = 0 then ⟨0, false, failTransition t.sess⟩
    else ⟨t.timeLeft - 1, true, t.sess⟩
  else t

/-- The end-to-end scenario's starting state: a fresh translate session at level
0 (`actualStart('translate', 0)`), with the countdown just started at
`timeLimit = max(3, 10 - floor(0 / 5)) = 10` seconds. -/
def translateScenarioStart : TimerState :=
  ⟨10, true, ⟨"translate", 0, 0, ⟨0, 0, false⟩, ⟨0, 0, false⟩, [], View.playing 0⟩⟩

/-- One letter button of the word-guess game's pool: its letter, and
`dataset.usedIdx` — the buffer slot this tile filled, `none` while the tile is
enabled (`handleLetterClick` sets it and disables the tile; `undoLetter`
deletes it and re-enables the tile). -/
structure Tile where
  letter : Char
  usedIdx : Option Nat
deriving DecidableEq, Repr

/-- The letter-assembly engine state: the guess buffer (`this.currentGuess`)
and the letter-pool tiles in DOM order. -/
structure GuessState where
  buffer : List Char
  tiles : List Tile
deriving DecidableEq, Repr

/-- `handleLetterClick` (source lines 603-623) on the tile at pool position
`i`: if the buffer is not yet full, append the tile's letter, record
`usedIdx = buffer length before the click` on the tile, and disable it.  A
click on a missing position is no input.  The success/fail evaluation fired at
full buffer is separate (`successAction` / `failAction`) and does not change
the engine fields modelled here. -/
def handleLetterClick (answerLen : Nat) (s : GuessState) (i : Nat) : GuessState :=
  match s.tiles[i]? with
  | none => s
  | some t =>
    if s.buffer.length < answerLen then
      { buffer := s.buffer ++ [t.letter],
        tiles := s.tiles.set i ⟨t.letter, some s.buffer.length⟩ }
    else s

/-- The search loop of `undoLetter` (source lines 634-641): re-enable (and
clear `usedIdx` of) the first tile, in DOM order, whose letter is `c` and
whose `usedIdx` is `k`, leaving every other tile unchanged. -/
def reEnableFirst : List Tile → Char → Nat → List Tile
  | [], _, _ => []
  | t :: ts, c, k =>
    if t.letter = c ∧ t.usedIdx = some k then ⟨t.letter, none⟩ :: ts
    else t :: reEnableFirst ts c k

/-- `undoLetter` (source lines 625-644): a no-op on an empty buffer; otherwise
clear the last slot, re-enable the tile that filled it (matched by letter and
`usedIdx == lastIdx`), and drop the last buffer character
(`currentGuess.slice(0, -1)`). -/
def undoLetter (s : GuessState) : GuessState :=
  if s.buffer.length = 0 then s
  else
    let lastIdx := s.buffer.length - 1
    let c := s.buffer.getD lastIdx ' '
    { buffer := s.buffer.dropLast,
      tiles := reEnableFirst s.tiles c lastIdx }

/-- Tile invariant of the letter-assembly engine: every `usedIdx` recorded on a
tile is a filled slot index, hence below the buffer length.  It holds for the
freshly rendered pool (all tiles enabled) and is preserved by clicks. -/
def TilesInv (s : GuessState) : Prop :=
  ∀ t ∈ s.tiles, ∀ k, t.usedIdx = some k → k < s.buffer.length

/-- The hangman engine state: the target word (`this.hangmanWord`), the set of
guessed letters (`this.guessedLetters`, a JS `Set` kept as a duplicate-free
insertion list), the mistake count, the hint currently displayed, and the
session level (used by `guessHangman` to re-fetch the hint). -/
structure HangmanState where
  level : Nat
  word : List Char
  guessed : List Char
  mistakes : Nat
  hint : String
deriving DecidableEq, Repr

/-- JS `Set.add`: append the element unless already present. -/
def setAdd (g : List Char) (c : Char) : List Char :=
  if c ∈ g then g else g ++ [c]

/-- `renderHangmanGame` (source lines 806-820): the target word and the initial
hint come from the hard-coded 4-word list at `currentLevel % words.length`;
guesses and mistakes start empty. -/
def renderHangmanGame (lvl : Nat) : HangmanState :=
  let data := hangmanLocalWords.getD (lvl % hangmanLocalWords.length) ⟨[], ""⟩
  ⟨lvl, data.word, [], 0, data.hint⟩

/-- `guessHangman` (source lines 868-878): add the letter to `guessedLetters`
(a `Set`, so re-adding changes nothing); if the word does not contain it,
`mistakes++` — this happens on every call with an absent letter, with no
already-guessed check; then re-render with the hint fetched from the 14-item
`hangman` corpus at `currentLevel % library.length`. -/
def guessHangman (s : HangmanState) (c : Char) : HangmanState :=
  { s with guessed := setAdd s.guessed c,
           mistakes := if c ∈ s.word then s.mistakes else s.mistakes + 1,
           hint := (hangmanCorpus.getD (s.level % hangmanCorpus.length) ⟨[], ""⟩).hint }

/-- A letter input event reaching the hangman engine: `updateHangmanUI` renders
the button of every already-guessed letter with the `disabled` attribute
(source lines 847-854), so a click event exists only for letters not in
`guessedLetters`; a repeated letter produces no event and changes nothing. -/
def hangmanInput (s : HangmanState) (c : Char) : HangmanState :=
  if c ∈ s.guessed then s else guessHangman s c

/-- The displayed word of `updateHangmanUI` (source line 823): each letter of
the target shown if guessed, an underscore otherwise. -/
def displayWord (s : HangmanState) : List Char :=
  s.word.map (fun l => if l ∈ s.guessed then l else '_')

/-- `this.maxMistakes` (source line 817). -/
def maxMistakes : Nat := 6

/-- The hangman engine's state classification. -/
inductive HangmanOutcome
  | active
  | succeeded
  | failed
deriving DecidableEq, Repr

/-- The terminal-state evaluation of `updateHangmanUI` (source lines 860-865):
success if the displayed word has no underscore left, else failure once
`mistakes >= maxMistakes`, else the challenge stays active. -/
def hangmanStatus (s : HangmanState) : HangmanOutcome :=
  if '_' ∉ displayWord s then HangmanOutcome.succeeded
  else if s.mistakes ≥ maxMistakes then HangmanOutcome.failed
  else HangmanOutcome.active

/-- Running a sequence of letter guesses through `guessHangman`. -/
def runGuesses (s : HangmanState) (L : List Char) : HangmanState :=
  L.foldl guessHangman s

/-- A guess run never changes the target word. -/
theorem runGuesses_word (L : List Char) :
    ∀ (s : HangmanState), (runGuesses s L).word = s.word := by
  induction L with
  | nil => intro s; rfl
  | cons c L ih => intro s; simpa [runGuesses, List.foldl] using ih (guessHangman s c)

/-- Membership after a JS `Set.add`. -/
theorem mem_setAdd (g : List Char) (c x : Char) : x ∈ setAdd g c ↔ x ∈ g ∨ x = c := by
  unfold setAdd
  split
  · constructor
    · exact fun h => Or.inl h
    · rintro (h | rfl)
      · exact h
      · assumption
  · simp

/-- After a run, the guessed set holds exactly the old guesses and the run's
letters. -/
theorem runGuesses_mem_guessed (L : List Char) :
    ∀ (s : HangmanState) (x : Char),
      x ∈ (runGuesses s L).guessed ↔ x ∈ s.guessed ∨ x ∈ L := by
  induction L with
  | nil => intro s x; simp [runGuesses]
  | cons c L ih =>
      intro s x
      have h0 : runGuesses s (c :: L) = runGuesses (guessHangman s c) L := rfl
      rw [h0, ih]
      simp [guessHangman, mem_setAdd]
      tauto

/-- Each guessed letter absent from the word adds exactly one mistake (counted
with multiplicity: `guessHangman` has no already-guessed check). -/
theorem runGuesses_mistakes (L : List Char) :
    ∀ (s : HangmanState),
      (runGuesses s L).mistakes = s.mistakes + L.countP (fun c => decide (c ∉ s.word)) := by
  induction L with
  | nil => intro s; simp [runGuesses]
  | cons c L ih =>
      intro s
      have h0 : runGuesses s (c :: L) = runGuesses (guessHangman s c) L := rfl
      rw [h0, ih]
      simp [guessHangman, List.countP_cons]
      by_cases hc : c ∈ s.word
      · simp [hc]
      · simp [hc]
        omega

/-- Undo's search loop, applied right after a click: under the tile invariant
the freshly clicked tile is the unique tile matching `(letter, usedIdx = n)`,
so the loop restores exactly it and leaves all others alone. -/
theorem reEnableFirst_set :
    ∀ (ts : List Tile) (i : Nat) (t : Tile) (n : Nat),
      ts[i]? = some t → t.usedIdx = none →
      (∀ u ∈ ts, ∀ k, u.usedIdx = some k → k < n) →
      reEnableFirst (ts.set i ⟨t.letter, some n⟩) t.letter n = ts
  | [], i, t, n => by intro h; simp at h
  | u :: us, 0, t, n => by
      intro hget ht hinv
      obtain rfl : t = u := by simpa using hget.symm
      obtain ⟨lt, ui⟩ := t
      simp at ht
      subst ht
      simp [reEnableFirst]
  | u :: us, i + 1, t, n => by
      intro hget ht hinv
      have hne : ¬(u.letter = t.letter ∧ u.usedIdx = some n) := by
        rintro ⟨-, h2⟩
        have := hinv u (by simp) n h2
        omega
      have hrec := reEnableFirst_set us i t n (by simpa using hget) ht
        (fun v hv k hk => hinv v (by simp [hv]) k hk)
      simp [List.set, reEnableFirst, hne, hrec]

/-- Undo is a left inverse of a click: for any state satisfying the tile
invariant, clicking an enabled tile (with room in the buffer) and then undoing
restores the exact prior engine state. -/
theorem undo_handleLetterClick (answerLen : Nat) (s : GuessState) (i : Nat) (t : Tile)
    (hinv : TilesInv s) (hget : s.tiles[i]? = some t) (hen : t.usedIdx = none)
    (hroom : s.buffer.length < answerLen) :
    undoLetter (handleLetterClick answerLen s i) = s := by
  have h1 : handleLetterClick answerLen s i =
      { buffer := s.buffer ++ [t.letter],
        tiles := s.tiles.set i ⟨t.letter, some s.buffer.length⟩ } := by
    unfold handleLetterClick
    rw [hget]
    simp [hroom]
  have hre : reEnableFirst (s.tiles.set i ⟨t.letter, some s.buffer.length⟩)
      t.letter s.buffer.length = s.tiles :=
    reEnableFirst_set s.tiles i t s.buffer.length hget hen
      (fun u hu k hk => hinv u hu k hk)
  rw [h1]
  unfold undoLetter
  rw [if_neg (by simp)]
  simp [List.getD, hre]

/-- The tile invariant is preserved by every click. -/
theorem TilesInv_handleLetterClick (answerLen : Nat) (s : GuessState) (i : Nat)
    (hinv : TilesInv s) : TilesInv (handleLetterClick answerLen s i) := by
  unfold handleLetterClick
  cases hget : s.tiles[i]? with
  | none => exact hinv
  | some t =>
      show TilesInv (if s.buffer.length < answerLen then
        { buffer := s.buffer ++ [t.letter],
          tiles := s.tiles.set i ⟨t.letter, some s.buffer.length⟩ } else s)
      by_cases hroom : s.buffer.length < answerLen
      · rw [if_pos hroom]
        intro u hu k hk
        simp only [List.length_append, List.length_cons, List.length_nil]
        rcases List.mem_or_eq_of_mem_set hu with hmem | rfl
        · have := hinv u hmem k hk
          omega
        · simp at hk
          omega
      · rw [if_neg hroom]
        exact hinv

/-- C2: on a Succeeded outcome the session score increases by exactly 10 and the
progress level increments; when the new level reaches `maxLevels` (200) the
record is marked completed, medals grow by exactly one, the level resets to 0,
the new record is persisted and the session ends at the menu; otherwise the
updated record is persisted and the same game type is re-rendered at the new
level. -/
theorem C2_success_transition (s : SessionState)
    (hsync : s.prog.level = s.currentLevel) :
    (successAction s).score = s.score + 10 ∧
    (successAction s).game = s.game ∧
    (successAction s).outcomes = s.outcomes ++ [Outcome.succeeded] ∧
    (s.currentLevel + 1 = maxLevels →
      (successAction s).prog.completed = true ∧
      (successAction s).prog.medals = s.prog.medals + 1 ∧
      (successAction s).prog.level = 0 ∧
      (successAction s).stored = (successAction s).prog ∧
      (successAction s).view = View.menu) ∧
    (s.currentLevel + 1 < maxLevels →
      (successAction s).prog.level = s.prog.level + 1 ∧
      (successAction s).prog.medals = s.prog.medals ∧
      (successAction s).prog.completed = s.prog.completed ∧
      (successAction s).stored = (successAction s).prog ∧
      (successAction s).view = View.playing (s.prog.level + 1)) := by
  by_cases h : s.currentLevel + 1 ≥ maxLevels
  · refine ⟨?_, ?_, ?_, fun heq => ⟨?_, ?_, ?_, ?_, ?_⟩, fun hlt => absurd hlt (by omega)⟩
    all_goals unfold successAction nextLevel successSync
    all_goals simp [h]
  · refine ⟨?_, ?_, ?_, fun heq => absurd heq (by omega), fun hlt => ⟨?_, ?_, ?_, ?_, ?_⟩⟩
    all_goals unfold successAction nextLevel successSync
    all_goals simp [h, hsync]

/-- Witness for C2 at a concrete mid-session state (level 3 of translate). -/
theorem C2_success_transition_witness :
    (successAction ⟨"translate", 0, 3, ⟨3, 0, false⟩, ⟨3, 0, false⟩, [], View.playing 3⟩).score = 0 + 10 ∧
    (successAction ⟨"translate", 0, 3, ⟨3, 0, false⟩, ⟨3, 0, false⟩, [], View.playing 3⟩).prog.level = 3 + 1 :=
  ⟨(C2_success_transition ⟨"translate", 0, 3, ⟨3, 0, false⟩, ⟨3, 0, false⟩, [], View.playing 3⟩
      (by decide)).1,
   ((C2_success_transition ⟨"translate", 0, 3, ⟨3, 0, false⟩, ⟨3, 0, false⟩, [], View.playing 3⟩
      (by decide)).2.2.2.2 (by decide)).1⟩

/-- C4: the number-to-words conversion on the spec's sample values, and the
digit-string degradation for every value of 1000 and above. -/
theorem C4_numberToWords_values :
    numberToWords 0 = "ZERO" ∧ numberToWords 15 = "FIFTEEN" ∧
    numberToWords 42 = "FORTY TWO" ∧ numberToWords 100 = "ONE HUNDRED" ∧
    numberToWords 305 = "THREE HUNDRED FIVE" ∧
    ∀ n : Nat, 1000 ≤ n → numberToWords n = toString n := by
  refine ⟨?_, ?_, ?_, ?_, ?_, ?_⟩
  · rw [numberToWords]; decide
  · rw [numberToWords]; decide
  · rw [numberToWords]; norm_num [onesWords, tensWords]; decide
  · rw [numberToWords]; norm_num [onesWords]; decide
  · rw [numberToWords]; norm_num [onesWords]; rw [numberToWords]; norm_num [onesWords]; decide
  · intro n h
    rw [numberToWords]
    have h1 : ¬ n < 20 := by omega
    have h2 : ¬ n < 100 := by omega
    have h3 : ¬ n < 1000 := by omega
    simp [h1, h2, h3]

/-- Witness for C4's digit-string branch at n = 1234. -/
theorem C4_numberToWords_values_witness :
    (1000 : Nat) ≤ 1234 ∧ numberToWords 1234 = toString 1234 :=
  ⟨by norm_num, C4_numberToWords_values.2.2.2.2.2 1234 (by norm_num)⟩

/-- C3: a Failed outcome (from a wrong answer or from countdown expiry) changes
no progress, no persisted record, and no session score, and re-renders the
same level; the end-to-end countdown scenario (translate, level 0, 10-second
timer, no input) reports exactly one Failed outcome, leaves the progress record
untouched, and retries level 0. -/
theorem C3_fail_retries_same_level :
    (∀ s : SessionState,
      (failTransition s).score = s.score ∧
      (failTransition s).prog = s.prog ∧
      (failTransition s).stored = s.stored ∧
      (failTransition s).currentLevel = s.currentLevel ∧
      (failTransition s).game = s.game ∧
      (failTransition s).outcomes = s.outcomes ++ [Outcome.failed] ∧
      (failTransition s).view = View.playing s.currentLevel) ∧
    ((timerTick^[10] translateScenarioStart).sess.outcomes = [Outcome.failed] ∧
     (timerTick^[10] translateScenarioStart).sess.prog = ⟨0, 0, false⟩ ∧
     (timerTick^[10] translateScenarioStart).sess.stored = ⟨0, 0, false⟩ ∧
     (timerTick^[10] translateScenarioStart).sess.score = 0 ∧
     (timerTick^[10] translateScenarioStart).sess.view = View.playing 0 ∧
     (timerTick^[10] translateScenarioStart).active = false ∧
     (∀ k : Nat, k < 10 → (timerTick^[k] translateScenarioStart).sess.outcomes = [])) := by
  constructor
  · intro s
    exact ⟨rfl, rfl, rfl, rfl, rfl, rfl, rfl⟩
  · refine ⟨by decide, by decide, by decide, by decide, by decide, by decide, ?_⟩
    intro k hk
    interval_cases k <;> decide

/-- Witness for C3's no-outcome-before-expiry clause at tick 3. -/
theorem C3_fail_retries_same_level_witness :
    (timerTick^[3] translateScenarioStart).sess.outcomes = [] :=
  C3_fail_retries_same_level.2.2.2.2.2.2.2 3 (by norm_num)

/-- C9 counterexample: directly after the synchronous part of `successAction` —
the point between the progress-level mutation (source line 1201) and the
delayed `nextLevel` callback that calls `saveProgress` — the persisted document
differs from the in-memory record, so persistence is deferred, not immediate. -/
theorem C9_persist_counterexample :
    (successSync ⟨"translate", 0, 0, ⟨0, 0, false⟩, ⟨0, 0, false⟩, [], View.playing 0⟩).prog ≠
      (successSync ⟨"translate", 0, 0, ⟨0, 0, false⟩, ⟨0, 0, false⟩, [], View.playing 0⟩).stored := by
  decide

/-- C9 amended: every progress mutation of the success transition is persisted
within the same transition, but only in its delayed continuation: once the
delayed `nextLevel` callback has run, the persisted document again equals the
in-memory record (in both the completion and the ordinary branch). -/
theorem C9_persist_after_delay (s : SessionState) :
    (successAction s).stored = (successAction s).prog := by
  unfold successAction nextLevel successSync
  by_cases h : s.currentLevel + 1 ≥ maxLevels
  · simp [h]
  · simp [h]

/-- C7: a letter already in `guessedLetters` never reaches the engine again —
`updateHangmanUI` renders its tile with the `disabled` attribute — so a
repeated guess changes neither the guessed set nor the mistake count (in
particular, an already-guessed absent letter never adds a second mistake),
while a fresh letter is recorded and adds a mistake exactly when it is absent
from the target word. -/
theorem C7_repeated_guess_rejected (s : HangmanState) (c : Char) :
    (c ∈ s.guessed → hangmanInput s c = s) ∧
    (c ∉ s.guessed →
      (hangmanInput s c).guessed = s.guessed ++ [c] ∧
      (hangmanInput s c).mistakes = (if c ∈ s.word then s.mistakes else s.mistakes + 1)) := by
  constructor
  · intro h
    unfold hangmanInput
    rw [if_pos h]
  · intro h
    unfold hangmanInput
    rw [if_neg h]
    unfold guessHangman setAdd
    rw [if_neg h]
    exact ⟨rfl, rfl⟩

/-- Witness for C7: repeating the absent letter Z on GALAXY changes nothing,
while the first Z costs exactly one mistake. -/
theorem C7_repeated_guess_rejected_witness :
    hangmanInput ⟨0, "GALAXY".toList, ['Z'], 1, ""⟩ 'Z' = ⟨0, "GALAXY".toList, ['Z'], 1, ""⟩ ∧
    (hangmanInput ⟨0, "GALAXY".toList, [], 0, ""⟩ 'Z').mistakes =
      (if 'Z' ∈ "GALAXY".toList then 0 else 0 + 1) :=
  ⟨(C7_repeated_guess_rejected ⟨0, "GALAXY".toList, ['Z'], 1, ""⟩ 'Z').1 (by decide),
   ((C7_repeated_guess_rejected ⟨0, "GALAXY".toList, [], 0, ""⟩ 'Z').2 (by decide)).2⟩

/-- C10: the hangman target word is drawn from the hard-coded 4-word list at
`levelIndex mod 4`, while the hint re-displayed after every guess is drawn from
the 14-item hangman corpus at `levelIndex mod 14`; at levelIndex 4 the two
selections denote different items (GALAXY vs COMPUTER), so the hint shown after
the first guess describes a different word than the one being guessed. -/
theorem C10_hangman_hint_mismatch :
    (∀ lvl : Nat, (renderHangmanGame lvl).word =
        (hangmanLocalWords.getD (lvl % 4) ⟨[], ""⟩).word) ∧
    (∀ (lvl : Nat) (c : Char),
      (guessHangman (renderHangmanGame lvl) c).hint =
        (hangmanCorpus.getD (lvl % 14) ⟨[], ""⟩).hint) ∧
    (∀ (lvl : Nat) (c : Char),
      (guessHangman (renderHangmanGame lvl) c).word = (renderHangmanGame lvl).word) ∧
    (renderHangmanGame 4).word = "GALAXY".toList ∧
    (hangmanCorpus.getD (4 % 14) ⟨[], ""⟩).word = "COMPUTER".toList ∧
    (hangmanCorpus.getD (4 % 14) ⟨[], ""⟩).word ≠ (renderHangmanGame 4).word ∧
    (guessHangman (renderHangmanGame 4) 'G').hint = "دستگاه هوشمند" ∧
    (guessHangman (renderHangmanGame 4) 'G').hint ≠ (renderHangmanGame 4).hint := by
  refine ⟨?_, ?_, ?_, by decide, by decide, by decide, by decide, by decide⟩
  · intro lvl
    have h4 : hangmanLocalWords.length = 4 := rfl
    simp [renderHangmanGame, h4]
  · intro lvl c
    have h14 : hangmanCorpus.length = 14 := rfl
    simp [guessHangman, renderHangmanGame, h14]
  · intro lvl c
    simp [guessHangman]

/-- Witness instantiating C10's selection clause at level 7. -/
theorem C10_hangman_hint_mismatch_witness :
    (renderHangmanGame 7).word = (hangmanLocalWords.getD (7 % 4) ⟨[], ""⟩).word :=
  C10_hangman_hint_mismatch.1 7

/-- C8: undo on an empty buffer is a no-op; the freshly rendered pool (all
tiles enabled) satisfies the tile invariant; every click preserves it; and
under it, undo after a click on an enabled tile (any placement sequence of
length at most the target length arises this way) pops the last buffer
character and re-enables exactly the tile instance that filled that slot,
restoring the exact prior engine state. -/
theorem C8_undo_restores_state :
    (∀ s : GuessState, s.buffer = [] → undoLetter s = s) ∧
    (∀ (tiles : List Tile), (∀ t ∈ tiles, t.usedIdx = none) →
      TilesInv ⟨[], tiles⟩) ∧
    (∀ (answerLen : Nat) (s : GuessState) (i : Nat),
      TilesInv s → TilesInv (handleLetterClick answerLen s i)) ∧
    (∀ (answerLen : Nat) (s : GuessState) (i : Nat) (t : Tile),
      TilesInv s → s.tiles[i]? = some t → t.usedIdx = none →
      s.buffer.length < answerLen →
      undoLetter (handleLetterClick answerLen s i) = s) := by
  refine ⟨?_, ?_, ?_, ?_⟩
  · intro s hb
    unfold undoLetter
    rw [if_pos (by simp [hb])]
  · intro tiles hall t ht k hk
    rw [hall t ht] at hk
    exact absurd hk (by simp)
  · intro answerLen s i hinv
    exact TilesInv_handleLetterClick answerLen s i hinv
  · intro answerLen s i t hinv hget hen hroom
    exact undo_handleLetterClick answerLen s i t hinv hget hen hroom

/-- Witness for C8: with APPLE's pool after placing A (tile 0 used), clicking
the L tile and undoing restores the exact prior state. -/
theorem C8_undo_restores_state_witness :
    undoLetter (handleLetterClick 5
      ⟨['A'], [⟨'P', some 0⟩, ⟨'L', none⟩, ⟨'E', none⟩]⟩ 1) =
      ⟨['A'], [⟨'P', some 0⟩, ⟨'L', none⟩, ⟨'E', none⟩]⟩ :=
  C8_undo_restores_state.2.2.2 5 ⟨['A'], [⟨'P', some 0⟩, ⟨'L', none⟩, ⟨'E', none⟩]⟩ 1 ⟨'L', none⟩
    (by intro u hu k hk; fin_cases hu <;> simp_all)
    (by decide) (by decide) (by decide)

/-- A word letter not yet guessed shows as an underscore in the displayed word. -/
theorem underscore_mem_displayWord (s : HangmanState) (l : Char)
    (hl : l ∈ s.word) (hng : l ∉ s.guessed) : '_' ∈ displayWord s := by
  unfold displayWord
  exact List.mem_map.mpr ⟨l, hl, by simp [hng]⟩

/-- When every letter of an underscore-free target is guessed, the engine
evaluates to Succeeded. -/
theorem hangmanStatus_succeeded (s : HangmanState) (hw : '_' ∉ s.word)
    (hall : ∀ l ∈ s.word, l ∈ s.guessed) :
    hangmanStatus s = HangmanOutcome.succeeded := by
  unfold hangmanStatus
  have hnu : '_' ∉ displayWord s := by
    intro hmem
    obtain ⟨l, hl, he⟩ := List.mem_map.mp hmem
    rw [if_pos (hall l hl)] at he
    rw [he] at hl
    exact hw hl
  rw [if_pos hnu]

/-- With an underscore still displayed and `maxMistakes` reached, the engine
evaluates to Failed. -/
theorem hangmanStatus_failed (s : HangmanState) (hu : '_' ∈ displayWord s)
    (hm : s.mistakes ≥ maxMistakes) : hangmanStatus s = HangmanOutcome.failed := by
  unfold hangmanStatus
  rw [if_neg (not_not_intro hu), if_pos hm]

/-- With an underscore still displayed and fewer than `maxMistakes` mistakes,
the challenge stays active. -/
theorem hangmanStatus_active (s : HangmanState) (hu : '_' ∈ displayWord s)
    (hm : s.mistakes < maxMistakes) : hangmanStatus s = HangmanOutcome.active := by
  unfold hangmanStatus
  rw [if_neg (not_not_intro hu), if_neg (by omega)]

/-- In a duplicate-free list, the element at position `j` does not occur among
the first `j` elements. -/
theorem getElem_not_mem_take (L : List Char) (j : Nat) (hj : j < L.length)
    (hnd : L.Nodup) : L.get ⟨j, hj⟩ ∉ L.take j := by
  intro hmem
  have h1 : L.take j ++ L.drop j = L := List.take_append_drop j L
  have h2 : (L.take j ++ L.drop j).Nodup := by rw [h1]; exact hnd
  have h3 : (L.take j).Disjoint (L.drop j) := (List.nodup_append.mp h2).2.2
  have h4 : L.get ⟨j, hj⟩ ∈ L.drop j := by
    rw [List.drop_eq_getElem_cons hj]
    exact List.mem_cons_self _ _
  exact h3 hmem h4

/-- C5: guessing all the distinct letters of the target word, in any order and
without repeats, always ends in Succeeded, with every proper prefix of the run
still active; guessing 6 distinct letters absent from the (nonempty) word ends
in Failed exactly at the 6th mistake, every earlier point still active. -/
theorem C5_hangman_win_lose :
    (∀ (s : HangmanState) (L : List Char),
      s.guessed = [] → s.mistakes = 0 → '_' ∉ s.word → L.Nodup →
      (∀ c : Char, c ∈ L ↔ c ∈ s.word) →
      hangmanStatus (runGuesses s L) = HangmanOutcome.succeeded ∧
      (∀ j : Nat, j < L.length →
        hangmanStatus (runGuesses s (L.take j)) = HangmanOutcome.active)) ∧
    (∀ (s : HangmanState) (L : List Char),
      s.guessed = [] → s.mistakes = 0 → s.word ≠ [] → L.Nodup → L.length = 6 →
      (∀ c ∈ L, c ∉ s.word) →
      hangmanStatus (runGuesses s L) = HangmanOutcome.failed ∧
      (∀ j : Nat, j < L.length →
        hangmanStatus (runGuesses s (L.take j)) = HangmanOutcome.active)) := by
  constructor
  · intro s L hg hm hw hnd hcov
    constructor
    · apply hangmanStatus_succeeded
      · rw [runGuesses_word]
        exact hw
      · intro l hl
        rw [runGuesses_word] at hl
        rw [runGuesses_mem_guessed]
        exact Or.inr ((hcov l).mpr hl)
    · intro j hj
      apply hangmanStatus_active
      · apply underscore_mem_displayWord _ (L.get ⟨j, hj⟩)
        · rw [runGuesses_word]
          exact (hcov _).mp (List.get_mem L j hj)
        · rw [runGuesses_mem_guessed]
          rintro (habs | habs)
          · rw [hg] at habs
            exact absurd habs (by simp)
          · exact getElem_not_mem_take L j hj hnd habs
      · rw [runGuesses_mistakes, hm]
        have hz : (L.take j).countP (fun c => decide (c ∉ s.word)) = 0 := by
          apply List.countP_eq_zero.mpr
          intro a ha
          have : a ∈ L := (List.take_sublist j L).subset ha
          simp [(hcov a).mp this]
        rw [hz]
        unfold maxMistakes
        omega
  · intro s L hg hm hne hnd hlen habs
    have hl0 : ∃ l0, l0 ∈ s.word := List.exists_mem_of_ne_nil s.word hne
    obtain ⟨l0, hl0⟩ := hl0
    have hstep : ∀ j : Nat, j ≤ L.length →
        '_' ∈ displayWord (runGuesses s (L.take j)) := by
      intro j hj
      apply underscore_mem_displayWord _ l0
      · rw [runGuesses_word]
        exact hl0
      · rw [runGuesses_mem_guessed]
        rintro (hx | hx)
        · rw [hg] at hx
          exact absurd hx (by simp)
        · exact habs l0 ((List.take_sublist j L).subset hx) hl0
    constructor
    · apply hangmanStatus_failed
      · have := hstep L.length (by omega)
        rwa [List.take_length] at this
      · rw [runGuesses_mistakes, hm]
        have hc : L.countP (fun c => decide (c ∉ s.word)) = L.length :=
          List.countP_eq_length.mpr (fun a ha => by simp [habs a ha])
        rw [hc, hlen]
        unfold maxMistakes
        omega
    · intro j hj
      apply hangmanStatus_active
      · exact hstep j (by omega)
      · rw [runGuesses_mistakes, hm]
        have hc : (L.take j).countP (fun c => decide (c ∉ s.word)) = (L.take j).length :=
          List.countP_eq_length.mpr
            (fun a ha => by simp [habs a ((List.take_sublist j L).subset ha)])
        rw [hc, List.length_take]
        unfold maxMistakes
        omega

/-- Witness for C5 on GALAXY (level 0): its 5 distinct letters win; 6 absent
letters lose. -/
theorem C5_hangman_win_lose_witness :
    hangmanStatus (runGuesses (renderHangmanGame 0) ['G', 'A', 'L', 'X', 'Y']) =
      HangmanOutcome.succeeded ∧
    hangmanStatus (runGuesses (renderHangmanGame 0) ['B', 'C', 'D', 'E', 'F', 'H']) =
      HangmanOutcome.failed :=
  ⟨(C5_hangman_win_lose.1 (renderHangmanGame 0) ['G', 'A', 'L', 'X', 'Y'] rfl rfl
      (by decide) (by decide)
      (by
        intro c
        rw [show (renderHangmanGame 0).word = ['G', 'A', 'L', 'A', 'X', 'Y'] from by decide]
        constructor
        · intro h
          fin_cases h <;> decide
        · intro h
          fin_cases h <;> decide)).1,
   (C5_hangman_win_lose.2 (renderHangmanGame 0) ['B', 'C', 'D', 'E', 'F', 'H'] rfl rfl
      (by decide) (by decide) (by decide)
      (by intro c hc; fin_cases hc <;> decide)).1⟩

/-- Patching slot 0 with a value puts that value among the options. -/
theorem mem_set_zero (l : List String) (a : String) (h : 0 < l.length) :
    a ∈ l.set 0 a := by
  cases l with
  | nil => simp at h
  | cons x xs => exact List.mem_cons_self a xs

/-- Patching slot 0 with a fresh value keeps the option list duplicate-free. -/
theorem nodup_set_zero (l : List String) (a : String) (hnd : l.Nodup) (ha : a ∉ l) :
    (l.set 0 a).Nodup := by
  cases l with
  | nil => simp
  | cons x xs =>
      show (a :: xs).Nodup
      rw [List.nodup_cons]
      exact ⟨fun hm => ha (List.mem_cons_of_mem x hm), (List.nodup_cons.mp hnd).2⟩

/-- A 4-element duplicate-free option list containing the correct answer has
exactly 3 distractors, none equal to the correct answer. -/
theorem distractor_props (opts : List String) (c : String) (h4 : opts.length = 4)
    (hm : c ∈ opts) (hnd : opts.Nodup) :
    (opts.erase c).length = 3 ∧ c ∉ opts.erase c :=
  ⟨by rw [List.length_erase_of_mem hm, h4], hnd.not_mem_erase⟩

/-- Options built by the rejection-sampling loop from `[correct]` and then
shuffled: 4 options, containing the correct answer, duplicate-free, hence
exactly 3 distractors none equal to the correct answer. -/
theorem loopChallenge_spec (vals : List String) (c : String) (s1 s2 : Nat → Nat)
    (fuel : Nat) (opts : List String)
    (h : pickLoop vals s1 fuel 0 [c] = some opts) :
    (shuffleArray s2 opts).length = 4 ∧ c ∈ shuffleArray s2 opts ∧
      (shuffleArray s2 opts).Nodup ∧
      ((shuffleArray s2 opts).erase c).length = 3 ∧
      c ∉ (shuffleArray s2 opts).erase c := by
  obtain ⟨hmem, hnd, hlen⟩ := pickLoop_some_spec vals s1 fuel 0 [c] opts h
  have h4 : opts.length = 4 := hlen (by simp)
  have hc : c ∈ opts := hmem c (by simp)
  have hn : opts.Nodup := hnd (by simp)
  have hp := shuffleArray_perm s2 opts
  have hlen2 : (shuffleArray s2 opts).length = 4 := by rw [hp.length_eq, h4]
  have hmem2 : c ∈ shuffleArray s2 opts := hp.mem_iff.mpr hc
  have hnd2 : (shuffleArray s2 opts).Nodup := hp.nodup_iff.mpr hn
  obtain ⟨he1, he2⟩ := distractor_props _ c hlen2 hmem2 hnd2
  exact ⟨hlen2, hmem2, hnd2, he1, he2⟩

/-- C1: for every levelIndex and every random stream under which the loop
completes, the translate, category-choice, and colors generators produce
exactly 3 distractor options none equal to the correct answer, and select the
corpus item at `levelIndex mod corpus.length`. -/
theorem C1_choice_generation :
    (∀ (lvl : Nat) (s1 s2 : Nat → Nat) (fuel : Nat) (ch : Challenge),
      translateChallenge lvl s1 s2 fuel = some ch →
      ch.correct = (translateLib.getD (lvl % translateLib.length) ⟨"", ""⟩).fa ∧
      ch.options.length = 4 ∧ ch.correct ∈ ch.options ∧ ch.options.Nodup ∧
      (ch.options.erase ch.correct).length = 3 ∧
      ch.correct ∉ ch.options.erase ch.correct) ∧
    (∀ (lib : List VocabItem) (lvl : Nat) (s1 s2 : Nat → Nat) (fuel : Nat) (ch : Challenge),
      categoryChallenge lib lvl s1 s2 fuel = some ch →
      ch.correct = (lib.getD (lvl % lib.length) ⟨"", ""⟩).en ∧
      ch.options.length = 4 ∧ ch.correct ∈ ch.options ∧ ch.options.Nodup ∧
      (ch.options.erase ch.correct).length = 3 ∧
      ch.correct ∉ ch.options.erase ch.correct) ∧
    (∀ (lvl : Nat) (s1 s2 : Nat → Nat),
      (colorsChallenge lvl s1 s2).correct =
        (colorsList.getD (lvl % colorsList.length) ⟨"", ""⟩).name ∧
      (colorsChallenge lvl s1 s2).options.length = 4 ∧
      (colorsChallenge lvl s1 s2).correct ∈ (colorsChallenge lvl s1 s2).options ∧
      (colorsChallenge lvl s1 s2).options.Nodup ∧
      ((colorsChallenge lvl s1 s2).options.erase (colorsChallenge lvl s1 s2).correct).length = 3 ∧
      (colorsChallenge lvl s1 s2).correct ∉
        (colorsChallenge lvl s1 s2).options.erase (colorsChallenge lvl s1 s2).correct) := by
  refine ⟨?_, ?_, ?_⟩
  · intro lvl s1 s2 fuel ch h
    simp only [translateChallenge] at h
    obtain ⟨opts, hloop, heq⟩ := Option.map_eq_some'.mp h
    subst heq
    obtain ⟨hl, hm, hn, he1, he2⟩ := loopChallenge_spec _ _ s1 s2 fuel opts hloop
    exact ⟨rfl, hl, hm, hn, he1, he2⟩
  · intro lib lvl s1 s2 fuel ch h
    simp only [categoryChallenge] at h
    obtain ⟨opts, hloop, heq⟩ := Option.map_eq_some'.mp h
    subst heq
    obtain ⟨hl, hm, hn, he1, he2⟩ := loopChallenge_spec _ _ s1 s2 fuel opts hloop
    exact ⟨rfl, hl, hm, hn, he1, he2⟩
  · intro lvl s1 s2
    have h5 : lvl % colorsList.length < 5 := by
      have hlc : colorsList.length = 5 := rfl
      rw [hlc]
      exact Nat.mod_lt _ (by norm_num)
    have hname : (colorsList.getD (lvl % colorsList.length) ⟨"", ""⟩).name ∉
        (["ORANGE", "BLACK", "WHITE", "BROWN"] : List String) := by
      have hgen : ∀ k, k < 5 → (colorsList.getD k ⟨"", ""⟩).name ∉
          (["ORANGE", "BLACK", "WHITE", "BROWN"] : List String) := by decide
      exact hgen _ h5
    set nm := (colorsList.getD (lvl % colorsList.length) ⟨"", ""⟩).name with hnm
    have hnd5 : ([nm, "ORANGE", "BLACK", "WHITE", "BROWN"] : List String).Nodup :=
      List.nodup_cons.mpr ⟨hname, by decide⟩
    have hpb := shuffleArray_perm s1 ([nm, "ORANGE", "BLACK", "WHITE", "BROWN"] : List String)
    have hbl : (shuffleArray s1 ([nm, "ORANGE", "BLACK", "WHITE", "BROWN"] : List String)).length = 5 := by
      rw [hpb.length_eq]
      rfl
    have hbn : (shuffleArray s1 ([nm, "ORANGE", "BLACK", "WHITE", "BROWN"] : List String)).Nodup :=
      hpb.nodup_iff.mpr hnd5
    set base := shuffleArray s1 ([nm, "ORANGE", "BLACK", "WHITE", "BROWN"] : List String) with hbase
    have hol : (base.take 4).length = 4 := by
      rw [List.length_take, hbl]
      decide
    have hon : (base.take 4).Nodup := hbn.sublist (List.take_sublist 4 base)
    have hops : ∀ opts2 : List String, opts2.length = 4 → nm ∈ opts2 → opts2.Nodup →
        (shuffleArray s2 opts2).length = 4 ∧ nm ∈ shuffleArray s2 opts2 ∧
          (shuffleArray s2 opts2).Nodup ∧
          ((shuffleArray s2 opts2).erase nm).length = 3 ∧
          nm ∉ (shuffleArray s2 opts2).erase nm := by
      intro opts2 hlen hmem hnd
      have hp := shuffleArray_perm s2 opts2
      have h1 : (shuffleArray s2 opts2).length = 4 := by rw [hp.length_eq, hlen]
      have h2 : nm ∈ shuffleArray s2 opts2 := hp.mem_iff.mpr hmem
      have h3 : (shuffleArray s2 opts2).Nodup := hp.nodup_iff.mpr hnd
      obtain ⟨h4, h5⟩ := distractor_props _ nm h1 h2 h3
      exact ⟨h1, h2, h3, h4, h5⟩
    simp only [colorsChallenge]
    rw [← hnm, ← hbase]
    by_cases hin : nm ∈ base.take 4
    · rw [if_pos hin]
      obtain ⟨h1, h2, h3, h4, h5⟩ := hops (base.take 4) hol hin hon
      exact ⟨by trivial, h1, h2, h3, h4, h5⟩
    · rw [if_neg hin]
      have hlen2 : ((base.take 4).set 0 nm).length = 4 := by
        rw [List.length_set, hol]
      have hmem2 : nm ∈ (base.take 4).set 0 nm := mem_set_zero _ _ (by omega)
      have hnd2 : ((base.take 4).set 0 nm).Nodup := nodup_set_zero _ _ hon hin
      obtain ⟨h1, h2, h3, h4, h5⟩ := hops _ hlen2 hmem2 hnd2
      exact ⟨by trivial, h1, h2, h3, h4, h5⟩

/-- Witness for C1: a concrete completed translate generation at level 0. -/
theorem C1_choice_generation_witness :
    translateChallenge 0 (fun p => p + 1) (fun _ => 0) 5 =
      some ⟨"کتاب", ["آب", "خورشید", "ماه", "کتاب"]⟩ ∧
    (["آب", "خورشید", "ماه", "کتاب"] : List String).length = 4 ∧
    "کتاب" ∈ (["آب", "خورشید", "ماه", "کتاب"] : List String) ∧
    (["آب", "خورشید", "ماه", "کتاب"] : List String).Nodup :=
  ⟨by decide,
   (C1_choice_generation.1 0 (fun p => p + 1) (fun _ => 0) 5
      ⟨"کتاب", ["آب", "خورشید", "ماه", "کتاب"]⟩ (by decide)).2.1,
   (C1_choice_generation.1 0 (fun p => p + 1) (fun _ => 0) 5
      ⟨"کتاب", ["آب", "خورشید", "ماه", "کتاب"]⟩ (by decide)).2.2.1,
   (C1_choice_generation.1 0 (fun p => p + 1) (fun _ => 0) 5
      ⟨"کتاب", ["آب", "خورشید", "ماه", "کتاب"]⟩ (by decide)).2.2.2.1⟩

/-- C6 counterexample: the distractor loop is NOT a bounded retry. For the
translate generator at level 0, a random stream that keeps drawing index 0
(whose value is the correct answer itself) makes the `while` loop spin forever:
no amount of fuel completes the generation. -/
theorem C6_unbounded_loop_counterexample :
    ¬ ∃ fuel : Nat, (translateChallenge 0 (fun _ => 0) (fun _ => 0) fuel).isSome := by
  rintro ⟨fuel, hf⟩
  have hnone : pickLoop (translateLib.map VocabItem.fa) (fun _ => 0) fuel 0
      [(translateLib.getD (0 % translateLib.length) ⟨"", ""⟩).fa] = none := by
    apply pickLoop_stuck
    · intro p
      decide
    · decide
  simp only [translateChallenge] at hf
  rw [hnone] at hf
  simp at hf

/-- C6 amended: the selection loop is unbounded rejection sampling, not a
bounded retry; it terminates exactly when the random draws are good enough —
whenever the values drawn within the fuel window contain at least 3 values
distinct from the correct answer, generation completes (translate and
category-choice generators, any corpus, any level). -/
theorem C6_generation_terminates_iff_draws :
    (∀ (lvl fuel : Nat) (s1 s2 : Nat → Nat),
      3 ≤ (((drawsWindow (translateLib.map VocabItem.fa) s1 0 fuel).toFinset \
            {(translateLib.getD (lvl % translateLib.length) ⟨"", ""⟩).fa}).card) →
      (translateChallenge lvl s1 s2 fuel).isSome) ∧
    (∀ (lib : List VocabItem) (lvl fuel : Nat) (s1 s2 : Nat → Nat),
      3 ≤ (((drawsWindow (lib.map VocabItem.en) s1 0 fuel).toFinset \
            {(lib.getD (lvl % lib.length) ⟨"", ""⟩).en}).card) →
      (categoryChallenge lib lvl s1 s2 fuel).isSome) := by
  constructor
  · intro lvl fuel s1 s2 hcard
    simp only [translateChallenge]
    rw [Option.isSome_map']
    apply pickLoop_isSome_of_window
    · simp
    · simpa using hcard
  · intro lib lvl fuel s1 s2 hcard
    simp only [categoryChallenge]
    rw [Option.isSome_map']
    apply pickLoop_isSome_of_window
    · simp
    · simpa using hcard

/-- Witness for C6's amended termination condition: a stream enumerating
corpus indices 1,2,3,4 completes the translate generation with fuel 4. -/
theorem C6_generation_terminates_iff_draws_witness :
    3 ≤ (((drawsWindow (translateLib.map VocabItem.fa) (fun p => p + 1) 0 4).toFinset \
          {(translateLib.getD (0 % translateLib.length) ⟨"", ""⟩).fa}).card) ∧
    (translateChallenge 0 (fun p => p + 1) (fun _ => 0) 4).isSome = true :=
  ⟨by decide,
   by simpa using C6_generation_terminates_iff_draws.1 0 4 (fun p => p + 1) (fun _ => 0) (by decide)⟩
